import Mathlib

/-!
Verification of `scripts/crawl.py` (llms-txt generator crawl pipeline).

The Python source is shallowly embedded: pure helper functions become Lean
functions over `String` / `List Char`; the crawl driver becomes a pure
function parameterised by fetch oracles (the network is the only effectful
boundary); `sys.exit(1)` becomes `Except.error`.  Behaviour of the Python
standard library (`urllib.parse`, `re`, `str` methods) that the script relies
on is embedded faithfully for the constructs the script uses, restricted to
ASCII where Python would apply Unicode rules (all keyword tables and URL
syntax in the script are ASCII).
-/

namespace Crawl

/-! ## Python string primitives -/

/-- ASCII lower-casing of one character (`str.lower`, restricted to ASCII). -/
def lowerChar (c : Char) : Char :=
  if 'A' ≤ c ∧ c ≤ 'Z' then Char.ofNat (c.toNat + 32) else c

/-- `s.lower()` (ASCII fragment). -/
def lowerStr (s : String) : String :=
  String.mk (s.data.map lowerChar)

/-- Python `\s` / `str.strip` whitespace, ASCII fragment. -/
def isSpaceChar (c : Char) : Bool :=
  c = ' ' ∨ c = '\t' ∨ c = '\n' ∨ c = '\r' ∨ c = '\x0b' ∨ c = '\x0c'

/-- `s.strip()` on character lists. -/
def stripChars (cs : List Char) : List Char :=
  ((cs.dropWhile isSpaceChar).reverse.dropWhile isSpaceChar).reverse

/-- `s.strip()`. -/
def stripStr (s : String) : String :=
  String.mk (stripChars s.data)

/-- `needle in hay` for character lists: substring containment test. -/
def isSubseqAt : List Char → List Char → Bool
  | [], _ => true
  | _ :: _, [] => false
  | n :: ns, h :: hs => n = h && isSubseqAt ns hs

/-- Python `needle in hay` (substring containment). -/
def containsList : List Char → List Char → Bool
  | _, [] => false
  | needle, h :: hs => isSubseqAt needle (h :: hs) || containsList needle hs

/-- Python `needle in hay` on strings; the empty needle is contained in
everything, matching Python. -/
def containsStr (hay needle : String) : Bool :=
  needle.data.isEmpty || containsList needle.data hay.data

/-- `hay.startswith(needle)`. -/
def startsWithStr (hay needle : String) : Bool :=
  isSubseqAt needle.data hay.data

/-- Python `s.split(sep)` for a one-character separator (e.g. `"a.b".split(".")`);
`"".split(".") = [""]` as in Python. -/
def splitOnChar (sep : Char) : List Char → List (List Char)
  | [] => [[]]
  | c :: rest =>
    match splitOnChar sep rest with
    | [] => [[]]
    | g :: gs => if c = sep then [] :: g :: gs else (c :: g) :: gs

/-- `s.rstrip("/")`: drop all trailing slashes. -/
def rstripSlash (s : String) : String :=
  String.mk ((s.data.reverse.dropWhile (fun c => c = '/')).reverse)

/-- `len(s)` (Python counts characters). -/
def pyLen (s : String) : Nat := s.data.length

/-- `s[:n]` character-slice truncation. -/
def pyTake (n : Nat) (s : String) : String := String.mk (s.data.take n)

/-- `list(set(xs))` for strings.  Python's `set` iteration order is
hash-dependent and unspecified; the embedding fixes first-occurrence order.
Every claim about the result depends only on membership, which `set`
determines exactly: each distinct element occurs exactly once. -/
def pySetList : List String → List String
  | [] => []
  | x :: xs => if (pySetList xs).contains x then pySetList xs else x :: pySetList xs

/-! ## `urllib.parse` model

`urlparse` is embedded following CPython's `urlsplit` (the script never has
`;`-parameters in URLs, so the params component is folded into the path). -/

structure UrlParts where
  scheme : String
  netloc : String
  path : String
  query : String
  fragment : String
  deriving DecidableEq

def isAsciiAlpha (c : Char) : Bool :=
  ('a' ≤ c ∧ c ≤ 'z') ∨ ('A' ≤ c ∧ c ≤ 'Z')

def isAsciiDigit (c : Char) : Bool :=
  '0' ≤ c ∧ c ≤ '9'

/-- Characters allowed after the first in a URL scheme. -/
def isSchemeChar (c : Char) : Bool :=
  isAsciiAlpha c || isAsciiDigit c || c = '+' || c = '-' || c = '.'

/-- Split off `scheme:` if the prefix before the first `:` is a valid scheme. -/
def splitScheme (cs : List Char) : Option (List Char × List Char) :=
  match cs.findIdx? (fun c => c = ':') with
  | none => none
  | some i =>
    let sch := cs.take i
    let rest := cs.drop (i + 1)
    match sch with
    | [] => none
    | c0 :: crest =>
      if isAsciiAlpha c0 && crest.all isSchemeChar then some (sch, rest) else none

/-- Take characters of the netloc: everything up to the first `/`, `?` or `#`. -/
def netlocSpan (cs : List Char) : List Char × List Char :=
  (cs.takeWhile (fun c => ¬ (c = '/' ∨ c = '?' ∨ c = '#')),
   cs.dropWhile (fun c => ¬ (c = '/' ∨ c = '?' ∨ c = '#')))

/-- Split at the first occurrence of `sep`: `(before, after)`;
if absent, `(cs, none)`. -/
def splitFirst (sep : Char) (cs : List Char) : List Char × Option (List Char) :=
  match cs.findIdx? (fun c => c = sep) with
  | none => (cs, none)
  | some i => (cs.take i, some (cs.drop (i + 1)))

/-- `urllib.parse.urlparse` (params folded into path, ASCII). -/
def urlparse (url : String) : UrlParts :=
  let cs := url.data
  let (scheme, rest) :=
    match splitScheme cs with
    | some (sch, r) => (sch.map lowerChar, r)
    | none => ([], cs)
  let (netloc, rest) :=
    match rest with
    | '/' :: '/' :: r => netlocSpan r
    | _ => ([], rest)
  let (rest, frag) := splitFirst '#' rest
  let (path, query) := splitFirst '?' rest
  { scheme := String.mk scheme
    netloc := String.mk netloc
    path := String.mk path
    query := String.mk (query.getD [])
    fragment := String.mk (frag.getD []) }

/-- CPython `urlunsplit` reassembly. -/
def urlunsplit (p : UrlParts) : String :=
  let base :=
    if p.netloc ≠ "" ∨ startsWithStr p.path "//" then
      let path := if p.path ≠ "" ∧ ¬ startsWithStr p.path "/" then "/" ++ p.path else p.path
      "//" ++ p.netloc ++ path
    else p.path
  let base := if p.scheme ≠ "" then p.scheme ++ ":" ++ base else base
  let base := if p.query ≠ "" then base ++ "?" ++ p.query else base
  if p.fragment ≠ "" then base ++ "#" ++ p.fragment else base

/-- Schemes for which relative resolution applies (CPython `uses_relative`). -/
def usesRelative : List String :=
  ["", "ftp", "http", "gopher", "nntp", "imap", "wais", "file", "https",
   "shttp", "mms", "prospero", "rtsp", "rtspu", "sftp", "svn", "svn+ssh",
   "ws", "wss"]

/-- Schemes with a netloc (CPython `uses_netloc`). -/
def usesNetloc : List String :=
  ["", "ftp", "http", "gopher", "nntp", "telnet", "imap", "wais", "file",
   "mms", "https", "shttp", "snews", "prospero", "rtsp", "rtspu", "rsync",
   "svn", "svn+ssh", "sftp", "nfs", "git", "git+ssh", "ws", "wss", "itms-services"]

/-- Resolve `..` and `.` segments (CPython `urljoin` loop). -/
def resolveSegments (segments : List String) : List String :=
  segments.foldl
    (fun acc seg =>
      if seg = ".." then acc.dropLast
      else if seg = "." then acc
      else acc ++ [seg])
    []

/-- `'/'.join(parts)` on strings. -/
def joinSlash (parts : List String) : String :=
  String.intercalate "/" parts

/-- `urllib.parse.urljoin`, following CPython's implementation (3.x). -/
def urljoin (base url : String) : String :=
  if base = "" then url
  else if url = "" then base
  else
    let b := urlparse base
    let u := urlparse url
    let scheme := if u.scheme = "" then b.scheme else u.scheme
    if scheme ≠ b.scheme ∨ ¬ usesRelative.contains scheme then url
    else
      let netlocGiven := usesNetloc.contains scheme ∧ u.netloc ≠ ""
      if netlocGiven then
        urlunsplit { u with scheme := scheme }
      else
        let netloc := if usesNetloc.contains scheme then b.netloc else u.netloc
        if u.path = "" then
          let query := if u.query = "" then b.query else u.query
          urlunsplit { scheme := scheme, netloc := netloc, path := b.path,
                       query := query, fragment := u.fragment }
        else
          let segments :=
            if startsWithStr u.path "/" then
              (splitOnChar '/' u.path.data).map String.mk
            else
              let baseParts := (splitOnChar '/' b.path.data).map String.mk
              let baseParts :=
                if baseParts.getLast? ≠ some "" then baseParts.dropLast else baseParts
              let segs := (splitOnChar '/' u.path.data).map String.mk
              let combined := baseParts ++ segs
              match combined with
              | [] => []
              | h :: t =>
                match t.reverse with
                | [] => [h]
                | lastSeg :: midRev =>
                  h :: (midRev.reverse.filter (fun s => s ≠ "")) ++ [lastSeg]
          let resolved := resolveSegments segments
          let resolved :=
            if segments.getLast? = some "." ∨ segments.getLast? = some ".." then
              resolved ++ [""]
            else resolved
          let path := if joinSlash resolved = "" then "/" else joinSlash resolved
          urlunsplit { scheme := scheme, netloc := netloc, path := path,
                       query := u.query, fragment := u.fragment }

/-- `".".join(netloc.split(".")[-2:])` — the script's apex-domain
approximation (crawl.py lines 83 and 96). -/
def apexDomain (netloc : String) : String :=
  let parts := (splitOnChar '.' netloc.data).map String.mk
  String.intercalate "." (parts.drop (parts.length - 2))

/-! ## Link keyword filters (crawl.py lines 39-48) -/

def TEAM_KEYWORDS : List String :=
  ["about", "team", "founder", "founders", "people", "who-we-are", "leadership"]

def CLIENT_KEYWORDS : List String :=
  ["customer", "customers", "client", "clients", "testimonial", "testimonials",
   "case-study", "case-studies", "review", "reviews", "story", "stories", "wall-of-love"]

def PRICING_KEYWORDS : List String :=
  ["pricing", "plans", "price"]

def API_KEYWORDS : List String :=
  ["api", "docs", "developer", "developers", "integration", "integrations",
   "openapi", "swagger"]

/-- The four categories in the priority order of `select_level2_links`. -/
def CATEGORIES : List (List String) :=
  [TEAM_KEYWORDS, CLIENT_KEYWORDS, PRICING_KEYWORDS, API_KEYWORDS]

/-- `keyword_match(text, keywords)` (crawl.py lines 46-48). -/
def keyword_match (text : String) (keywords : List String) : Bool :=
  keywords.any (fun kw => containsStr (lowerStr text) kw)

/-! ## Links and scoring -/

/-- The `{"text": ..., "url": ...}` link dict. -/
structure Link where
  text : String
  url : String
  deriving DecidableEq

/-- Loop body of `score_link`: 2 points for a keyword in the path, else 1
point for a keyword in the text. -/
def scoreStep (path text : String) (score : Nat) (kw : String) : Nat :=
  if containsStr path kw then score + 2
  else if containsStr text kw then score + 1
  else score

/-- `score_link(link, keywords)` (crawl.py lines 181-191): 2 points per
keyword found in the lower-cased URL path, else 1 point per keyword found in
the lower-cased link text. -/
def score_link (link : Link) (keywords : List String) : Nat :=
  keywords.foldl
    (scoreStep (lowerStr (urlparse link.url).path) (lowerStr link.text)) 0

/-- Stable insertion for descending sort by score: an element is placed
before the first element whose score is `≤` its own, so later equal-score
elements stay behind earlier ones — the order Python's stable
`scored.sort(key=lambda x: -x[0])` produces. -/
def insertByScoreDesc (x : Nat × Link) : List (Nat × Link) → List (Nat × Link)
  | [] => [x]
  | y :: ys => if y.1 ≤ x.1 then x :: y :: ys else y :: insertByScoreDesc x ys

/-- `scored.sort(key=lambda x: -x[0])` — stable descending sort by score. -/
def sortByScoreDesc (l : List (Nat × Link)) : List (Nat × Link) :=
  l.foldr insertByScoreDesc []

/-- Loop state of `select_level2_links`: the `selected` list and the
`seen_urls` set. -/
structure SelState where
  selected : List Link
  seen : List String
  deriving DecidableEq

/-- Truthiness guard of the inner `add` (crawl.py lines 204-212): skip
fragment-carrying root-path links, then add if unseen and fewer than 4
links are selected. -/
def addLink (st : SelState) (link : Link) : SelState :=
  let parsed := urlparse link.url
  if parsed.fragment ≠ "" ∧ (parsed.path = "/" ∨ parsed.path = "") then st
  else if ¬ st.seen.contains link.url ∧ st.selected.length < 4 then
    { selected := st.selected ++ [link], seen := st.seen ++ [link.url] }
  else st

/-- The scored, positive-filtered, descending-sorted candidate list for one
category (crawl.py lines 216-218). -/
def categoryCandidates (links : List Link) (keywords : List String) :
    List (Nat × Link) :=
  sortByScoreDesc (((links.map (fun l => (score_link l keywords, l))).filter
    (fun p => 0 < p.1)))

/-- One iteration of the category loop (crawl.py lines 214-220). -/
def categoryStep (links : List Link) (st : SelState) (keywords : List String) :
    SelState :=
  match categoryCandidates links keywords with
  | [] => st
  | best :: _ => addLink st best.2

/-- `select_level2_links(links)` (crawl.py lines 194-222). -/
def select_level2_links (links : List Link) : List Link :=
  (CATEGORIES.foldl (categoryStep links) ⟨[], []⟩).selected

/-! ## Regular-expression machinery

The script uses `re` on four fixed patterns.  Each pattern is embedded as a
matcher `List Char → Option (List Char × List Char)` returning the captured
text (`group(0)`, or `group(1)` where `findall` would return the group) and
the rest of the input after the full match.  `finditer`/`findall` scan
left-to-right, taking the leftmost match and resuming after its end, as in
CPython. -/

def isUpperAZ (c : Char) : Bool := 'A' ≤ c ∧ c ≤ 'Z'

def isLowerAZ (c : Char) : Bool := 'a' ≤ c ∧ c ≤ 'z'

/-- Python `\w` (ASCII fragment), used for `\b`. -/
def isWordChar (c : Char) : Bool := isAsciiAlpha c || isAsciiDigit c || c = '_'

/-- Match a literal string, returning the rest. -/
def matchLit : List Char → List Char → Option (List Char)
  | [], cs => some cs
  | _ :: _, [] => none
  | l :: ls, c :: cs => if l = c then matchLit ls cs else none

/-- First literal alternative that matches (regex alternation order). -/
def matchAlts : List (List Char) → List Char → Option (List Char × List Char)
  | [], _ => none
  | a :: as, cs =>
    match matchLit a cs with
    | some rest => some (a, rest)
    | none => matchAlts as cs

/-- `[A-Z][a-z]+` — greedy; the following regex token is never a lowercase
letter in the two team patterns, so maximal munch is exact. -/
def matchCapWord (cs : List Char) : Option (List Char × List Char) :=
  match cs with
  | [] => none
  | c :: rest =>
    if isUpperAZ c then
      let run := rest.takeWhile isLowerAZ
      if run.isEmpty then none
      else some (c :: run, rest.dropWhile isLowerAZ)
    else none

/-- `[A-Z][a-z]+ [A-Z][a-z]+` — the "Firstname Lastname" fragment. -/
def matchFullName (cs : List Char) : Option (List Char × List Char) :=
  match matchCapWord cs with
  | none => none
  | some (w1, r1) =>
    match r1 with
    | ' ' :: r2 =>
      match matchCapWord r2 with
      | none => none
      | some (w2, r3) => some (w1 ++ ' ' :: w2, r3)
    | _ => none

/-- Titles of the first team pattern, in the regex's alternation order. -/
def TITLE_ALTS : List (List Char) :=
  ["CEO", "CTO", "COO", "CPO", "Founder", "Co-founder", "Head of", "VP",
   "Director"].map String.data

/-- Roles of the second team pattern, in the regex's alternation order. -/
def ROLE_ALTS : List (List Char) :=
  ["founder", "co-founder", "CEO", "CTO"].map String.data

/-- Pattern `([A-Z][a-z]+ [A-Z][a-z]+),\s*(CEO|CTO|COO|CPO|Founder|Co-founder|Head of|VP|Director)`.
`\s*` is greedy and no alternative starts with whitespace, so maximal munch
is exact. -/
def matchTeamP1 (cs : List Char) : Option (List Char × List Char) :=
  match matchFullName cs with
  | none => none
  | some (nm, r1) =>
    match r1 with
    | ',' :: r2 =>
      let sp := r2.takeWhile isSpaceChar
      let r3 := r2.dropWhile isSpaceChar
      match matchAlts TITLE_ALTS r3 with
      | none => none
      | some (t, r4) => some (nm ++ ',' :: sp ++ t, r4)
    | _ => none

/-- Helper for the second team pattern: after the optional article, match a
role alternative and build `group(0)`. -/
def matchRoleTail (nm pre r : List Char) : Option (List Char × List Char) :=
  match matchAlts ROLE_ALTS r with
  | none => none
  | some (t, r4) => some (nm ++ " is ".data ++ pre ++ t, r4)

/-- Pattern `([A-Z][a-z]+ [A-Z][a-z]+) is (the |our )?(founder|co-founder|CEO|CTO)`.
The optional group is greedy with backtracking: try `"the "`, then `"our "`,
then the empty alternative. -/
def matchTeamP2 (cs : List Char) : Option (List Char × List Char) :=
  match matchFullName cs with
  | none => none
  | some (nm, r1) =>
    match matchLit " is ".data r1 with
    | none => none
    | some r2 =>
      match (matchLit "the ".data r2).bind (matchRoleTail nm "the ".data) with
      | some res => some res
      | none =>
        match (matchLit "our ".data r2).bind (matchRoleTail nm "our ".data) with
        | some res => some res
        | none => matchRoleTail nm [] r2

/-- `re.finditer` scan: at each position try the matcher; on a match, record
the captured text and resume after the match (or one character further for a
zero-width match, as CPython does).  Fuel is the input length; every step
consumes at least one character. -/
def finditerAux (m : List Char → Option (List Char × List Char)) :
    Nat → List Char → Nat → List (Nat × List Char)
  | 0, _, _ => []
  | fuel + 1, cs, pos =>
    match cs with
    | [] => []
    | _ :: tail =>
      match m cs with
      | some (g, rest) =>
        let len := cs.length - rest.length
        if len = 0 then (pos, g) :: finditerAux m fuel tail (pos + 1)
        else (pos, g) :: finditerAux m fuel (cs.drop len) (pos + len)
      | none => finditerAux m fuel tail (pos + 1)

/-- `[(m.start(), captured text) for m in re.finditer(pattern, s)]`. -/
def finditer (m : List Char → Option (List Char × List Char)) (s : String) :
    List (Nat × String) :=
  (finditerAux m s.data.length s.data 0).map (fun p => (p.1, String.mk p.2))

/-- `extract_team_snippets(text)` (crawl.py lines 162-171): all matches of
the first pattern, then all matches of the second, truncated to 5. -/
def extract_team_snippets (text : String) : List String :=
  (((finditer matchTeamP1 text).map Prod.snd) ++
   ((finditer matchTeamP2 text).map Prod.snd)).take 5

/-- The three quotation characters of the testimonial pattern. -/
def isQuoteChar (c : Char) : Bool :=
  c = '"' ∨ c = Char.ofNat 0x201c ∨ c = Char.ofNat 0x201d

/-- Pattern `["“”]([^"“”]{30,200})["“”]`, capturing group 1.  The greedy
bounded repeat backtracks only within the maximal quote-free run, and every
shorter prefix is followed by a non-quote character, so the match succeeds
exactly when the maximal run has length 30-200 and is followed by a quote. -/
def matchQuote (cs : List Char) : Option (List Char × List Char) :=
  match cs with
  | [] => none
  | c :: r =>
    if isQuoteChar c then
      let run := r.takeWhile (fun d => ¬ isQuoteChar d)
      let n := run.length
      if 30 ≤ n ∧ n ≤ 200 then
        match r.drop n with
        | q :: rest2 => if isQuoteChar q then some (run, rest2) else none
        | [] => none
      else none
    else none

/-- `extract_testimonial_snippets(text)` (crawl.py lines 174-176). -/
def extract_testimonial_snippets (text : String) : List String :=
  ((finditer matchQuote text).map Prod.snd).take 3

/-- Email characters before the `@`: `[a-zA-Z0-9._%+\-]`. -/
def isEmailLocalChar (c : Char) : Bool :=
  isAsciiAlpha c || isAsciiDigit c || c = '.' || c = '_' || c = '%' || c = '+' || c = '-'

/-- Email characters after the `@`: `[a-zA-Z0-9.\-]`. -/
def isEmailDomChar (c : Char) : Bool :=
  isAsciiAlpha c || isAsciiDigit c || c = '.' || c = '-'

/-- Backtracking of `[a-zA-Z0-9.\-]+\.[a-zA-Z]{2,}` inside the maximal
domain-character run: the greedy `+` shrinks from the right, so the match
uses the largest index `j ≥ 1` where `run[j] = '.'` is followed by at least
two letters; the `{2,}` then takes the maximal letter run.  Returns the
number of characters of `run` consumed. -/
def emailDomLen (run : List Char) : Nat → Option Nat
  | 0 => none
  | j + 1 =>
    if run.getD (j + 1) ' ' = '.' then
      let letters := (run.drop (j + 2)).takeWhile isAsciiAlpha
      if 2 ≤ letters.length then some (j + 2 + letters.length)
      else emailDomLen run j
    else emailDomLen run j

/-- Pattern `[a-zA-Z0-9._%+\-]+@[a-zA-Z0-9.\-]+\.[a-zA-Z]{2,}` (crawl.py
line 103), capturing the whole match. -/
def matchEmail (cs : List Char) : Option (List Char × List Char) :=
  let lp := cs.takeWhile isEmailLocalChar
  if lp.isEmpty then none
  else
    match cs.drop lp.length with
    | '@' :: r =>
      let run := r.takeWhile isEmailDomChar
      match emailDomLen run (run.length - 1) with
      | none => none
      | some n => some (lp ++ '@' :: run.take n, r.drop n)
    | _ => none

/-- `re.findall` of the email pattern over raw HTML. -/
def findallEmails (s : String) : List String :=
  (finditer matchEmail s).map Prod.snd

/-- `$` or `₹` followed by a digit (`\$\d`, `₹\d`). -/
def searchSymDigit (sym : Char) : List Char → Bool
  | [] => false
  | [_] => false
  | c :: d :: rest => (c = sym ∧ isAsciiDigit d) || searchSymDigit sym (d :: rest)

/-- `/mo\b` on the already lower-cased text: `"/mo"` followed by a word
boundary (end of input or a non-word character). -/
def searchMoB : List Char → Bool
  | '/' :: 'm' :: 'o' :: rest =>
    (match rest with
     | [] => true
     | c :: _ => ¬ isWordChar c) || searchMoB ('m' :: 'o' :: rest)
  | _ :: rest => searchMoB rest
  | [] => false

/-- `detect_pricing(text)` (crawl.py lines 156-159).  `re.IGNORECASE` is
modelled by lower-casing the text; all pattern letters are lower-case. -/
def detect_pricing (text : String) : Bool :=
  let lt := (lowerStr text).data
  searchSymDigit '$' lt || searchSymDigit '₹' lt ||
  containsList "/month".data lt || searchMoB lt ||
  containsList "/user".data lt || containsList "/seat".data lt ||
  containsList "per candidate".data lt || containsList "per assessment".data lt ||
  containsList "per seat".data lt || containsList "starting at".data lt

/-! ## Page extraction (crawl.py lines 80-151)

BeautifulSoup is the parsing collaborator; an `HtmlDoc` records exactly the
observations `extract_page` makes of the soup: the raw HTML string (email
regex input and the `if html:` truthiness test in the crawler), the anchor
elements collected before nav/footer stripping, and the post-`decompose`
title/h1/meta/heading/text-block observations. -/

/-- One `<a href=...>` element: its `href` attribute and
`get_text(strip=True)` text. -/
structure Anchor where
  href : String
  text : String
  deriving DecidableEq

/-- A heading or text-block element: its `get_text(strip=True)` text and
whether `find_parent(["nav", "footer", "header"])` finds an ancestor. -/
structure TaggedText where
  text : String
  inNavFooterHeader : Bool
  deriving DecidableEq

structure HtmlDoc where
  /-- The raw HTML string (the `html` argument). -/
  raw : String
  /-- `soup.find_all("a", href=True)` in document order, pre-cleanup. -/
  anchors : List Anchor
  /-- `soup.title.string`; `none` covers both a missing `<title>` tag and a
  `None` string — either way the script falls back to `""`. -/
  titleTag : Option String
  /-- Stripped text of the first `<h1>`, when an `<h1>` exists. -/
  firstH1 : Option String
  /-- The `content` attribute of `meta[name=description]`; `none` when the
  tag is absent, `some ""` when the tag lacks the attribute. -/
  metaDescContent : Option String
  /-- `h1`/`h2`/`h3` elements in document order, post-cleanup. -/
  headings : List TaggedText
  /-- `p`/`li`/`blockquote` elements in document order, post-cleanup. -/
  textBlocks : List TaggedText
  deriving DecidableEq

structure PageExtract where
  title : String
  meta_desc : String
  headings : List String
  raw_text : String
  links : List Link
  emails : List String
  deriving DecidableEq

/-- Email denylist fragments (crawl.py line 104). -/
def EMAIL_DENYLIST : List String := ["example", "test@", "@sentry", "@email"]

/-- Loop body of the link collection (crawl.py lines 89-100); the
accumulator pairs `links` with the `seen_link_urls` set. -/
def linkFold (base_url base_domain : String) (acc : List Link × List String)
    (a : Anchor) : List Link × List String :=
  let href := stripStr a.href
  if href = "" ∨ startsWithStr href "javascript:" ∨ startsWithStr href "tel:" ∨
      startsWithStr href "mailto:" then acc
  else
    let abs_url := urljoin base_url href
    let parsed := urlparse abs_url
    let link_domain := apexDomain parsed.netloc
    if link_domain = base_domain ∧ parsed.path ≠ "" ∧ ¬ acc.2.contains abs_url then
      (acc.1 ++ [⟨a.text, abs_url⟩], acc.2 ++ [abs_url])
    else acc

/-- `extract_page(html, base_url)` (crawl.py lines 80-151). -/
def extract_page (doc : HtmlDoc) (base_url : String) : PageExtract :=
  let base_domain := apexDomain (urlparse base_url).netloc
  let links := (doc.anchors.foldl (linkFold base_url base_domain) ([], [])).1
  let emails :=
    (pySetList (findallEmails doc.raw)).filter
      (fun e => !(EMAIL_DENYLIST.any (fun x => containsStr (lowerStr e) x)))
  let title :=
    match doc.firstH1 with
    | some h => if h ≠ "" then h else doc.titleTag.getD ""
    | none => doc.titleTag.getD ""
  let meta_desc := doc.metaDescContent.getD ""
  let headings :=
    (doc.headings.filter (fun t => ¬ t.inNavFooterHeader ∧ t.text ≠ "")).map
      TaggedText.text
  let paragraphs :=
    (doc.textBlocks.filter (fun t => ¬ t.inNavFooterHeader ∧ 30 < pyLen t.text)).map
      TaggedText.text
  { title := title
    meta_desc := meta_desc
    headings := headings
    raw_text := String.intercalate " " paragraphs
    links := links
    emails := emails }

/-! ## Fetching (crawl.py lines 53-75)

The network is the effectful boundary: one `httpx.get` call either raises a
transport exception or yields a response with a status, headers, body and
final URL.  `fetch` is the script's pure decision on that outcome. -/

inductive HttpAttempt where
  /-- `httpx.get` raised (DNS, TLS, timeout, connection reset, ...). -/
  | failure
  /-- A response: status code, `content-type` header (absent allowed),
  body text, and final URL after redirects. -/
  | success (status : Nat) (contentType : Option String) (body : String)
      (finalUrl : String)
  deriving DecidableEq

/-- `fetch(url)` (crawl.py lines 53-64): `(html_text, final_url)` on a 200
HTML response, `(None, None)` otherwise; the `except` clause makes the
function total on transport errors. -/
def fetch : HttpAttempt → Option String × Option String
  | .failure => (none, none)
  | .success status ct body finalUrl =>
    if status = 200 ∧ containsStr (ct.getD "") "text/html" then
      (some body, some finalUrl)
    else (none, none)

/-! ## The crawl driver (crawl.py lines 227-377)

`crawl` is embedded as a pure function of two oracles: `fetchO url` is the
composite of `fetch` and BeautifulSoup parsing — `none` when `fetch`
returns `(None, None)`, and `some (doc, final_url)` when it returns
`(html, final_url)` with `doc` the parse of `html` (`doc.raw = html`);
`textO` models `fetch_text_file`.  `sys.exit(1)` becomes `Except.error ()`. -/

def MAX_TEXT_LENGTH : Nat := 3000

def MAX_TEXT_LENGTH_DEEP : Nat := 8000

/-- Python dict insertion: an existing key keeps its position and gets the
new value; a new key is appended. -/
def dictInsert {α : Type} (k : String) (v : α) :
    List (String × α) → List (String × α)
  | [] => [(k, v)]
  | (k2, v2) :: rest =>
    if k2 = k then (k, v) :: rest else (k2, v2) :: dictInsert k v rest

/-- Level-1 loop body (crawl.py lines 236-241): on a truthy body, extract
the page and store it under `final_url or url`. -/
def level1Step (fetchO : String → Option (HtmlDoc × String))
    (pages : List (String × PageExtract)) (url : String) :
    List (String × PageExtract) :=
  match fetchO url with
  | none => pages
  | some (doc, final_url) =>
    if doc.raw ≠ "" then
      let key := if final_url ≠ "" then final_url else url
      dictInsert key (extract_page doc key) pages
    else pages

/-- Accumulator of the level-1 merge (crawl.py lines 247-269). -/
structure L1Merge where
  all_links : List Link
  all_emails : List String
  all_headings : List String
  all_text : String
  title : String
  meta_desc : String
  pages_crawled : List String
  pages_raw : List (String × String)
  deriving DecidableEq

/-- Level-1 merge loop body (crawl.py lines 258-269): first non-empty title
and meta-description win; everything else concatenates. -/
def mergeStep (deep : Bool) (text_limit : Nat) (acc : L1Merge)
    (kv : String × PageExtract) : L1Merge :=
  { all_links := acc.all_links ++ kv.2.links
    all_emails := acc.all_emails ++ kv.2.emails
    all_headings := acc.all_headings ++ kv.2.headings
    all_text := acc.all_text ++ " " ++ kv.2.raw_text
    title := if acc.title = "" then kv.2.title else acc.title
    meta_desc := if acc.meta_desc = "" then kv.2.meta_desc else acc.meta_desc
    pages_crawled := acc.pages_crawled ++ [kv.1]
    pages_raw :=
      if deep then dictInsert kv.1 (pyTake text_limit kv.2.raw_text) acc.pages_raw
      else acc.pages_raw }

/-- Link dedup before selection (crawl.py lines 272-278): key is the URL
with trailing slashes stripped; the link must have non-empty text. -/
def uniqueLinksFold (acc : List Link × List String) (l : Link) :
    List Link × List String :=
  let key := rstripSlash l.url
  if ¬ acc.2.contains key ∧ l.text ≠ "" then (acc.1 ++ [l], acc.2 ++ [key])
  else acc

structure TeamRec where
  url : String
  snippets : List String
  raw : String
  deriving DecidableEq

structure ClientsRec where
  url : String
  testimonials : List String
  raw : String
  deriving DecidableEq

structure PlainRec where
  url : String
  raw : String
  deriving DecidableEq

/-- `level2_data` (crawl.py line 286); `none` is the initial empty dict. -/
structure CatState where
  team : Option TeamRec
  clients : Option ClientsRec
  pricing : Option PlainRec
  api : Option PlainRec
  deriving DecidableEq

/-- Classification of one fetched level-2 page (crawl.py lines 301-332):
first matching category in team, clients, pricing, api order; team and
pricing pages backfill the clients bucket with testimonials when it is
still empty. -/
def level2Classify (link : Link) (page : PageExtract) (c : CatState) : CatState :=
  let combined := lowerStr (link.text ++ " " ++ link.url)
  let testimonials := extract_testimonial_snippets page.raw_text
  if keyword_match combined TEAM_KEYWORDS then
    let c1 : CatState :=
      { c with team := some ⟨link.url, extract_team_snippets page.raw_text,
          pyTake 1000 page.raw_text⟩ }
    if testimonials ≠ [] ∧ c1.clients = none then
      { c1 with clients := some ⟨link.url, testimonials, pyTake 500 page.raw_text⟩ }
    else c1
  else if keyword_match combined CLIENT_KEYWORDS then
    { c with clients := some ⟨link.url, testimonials, pyTake 1000 page.raw_text⟩ }
  else if keyword_match combined PRICING_KEYWORDS then
    let c1 : CatState := { c with pricing := some ⟨link.url, pyTake 500 page.raw_text⟩ }
    if testimonials ≠ [] ∧ c1.clients = none then
      { c1 with clients := some ⟨link.url, testimonials, pyTake 500 page.raw_text⟩ }
    else c1
  else if keyword_match combined API_KEYWORDS then
    { c with api := some ⟨link.url, pyTake 500 page.raw_text⟩ }
  else c

/-- Mutable state of the level-2 loop. -/
structure L2Acc where
  pages_crawled : List String
  all_emails : List String
  all_text : String
  all_headings : List String
  pages_raw : List (String × String)
  cats : CatState
  deriving DecidableEq

/-- Level-2 loop body (crawl.py lines 288-333). -/
def level2Step (fetchO : String → Option (HtmlDoc × String)) (deep : Bool)
    (text_limit : Nat) (acc : L2Acc) (link : Link) : L2Acc :=
  match fetchO link.url with
  | none => acc
  | some (doc, final_url) =>
    if doc.raw = "" then acc
    else
      let page_url := if final_url ≠ "" then final_url else link.url
      let page := extract_page doc page_url
      { pages_crawled := acc.pages_crawled ++ [page_url]
        all_emails := acc.all_emails ++ page.emails
        all_text := acc.all_text ++ " " ++ page.raw_text
        all_headings := acc.all_headings ++ page.headings
        pages_raw :=
          if deep then dictInsert page_url (pyTake text_limit page.raw_text) acc.pages_raw
          else acc.pages_raw
        cats := level2Classify link page acc.cats }

/-- Navigation-noise denylist for important links (crawl.py line 344). -/
def NAV_NOISE : List String :=
  ["login", "signin", "sign-in", "logout", "cart", "cookie", "privacy",
   "terms", "javascript"]

/-- The output record (crawl.py lines 351-375).  `Option` fields model the
`or {}` empty-dict defaults and the JSON-absent `pages_raw`. -/
structure BusinessInfo where
  domain : String
  title : String
  meta_desc : String
  headings : List String
  raw_text_summary : String
  emails : List String
  important_links : List Link
  pricing_found : Bool
  pricing_data : Option PlainRec
  api_found : Bool
  api_data : Option PlainRec
  team_found : Bool
  team_data : Option TeamRec
  testimonials_found : Bool
  testimonials_data : Option ClientsRec
  existing_llms_txt : Option String
  pages_crawled : List String
  deep : Bool
  pages_raw : Option (List (String × String))
  deriving DecidableEq

/-- Output assembly (crawl.py lines 341-377). -/
def assembleOutput (domain : String) (deep : Bool) (text_limit : Nat)
    (m : L1Merge) (unique_links : List Link) (st : L2Acc)
    (existing_llms_txt : Option String) : BusinessInfo :=
  { domain := domain
    title := m.title
    meta_desc := m.meta_desc
    headings := st.all_headings.take 20
    raw_text_summary := pyTake text_limit st.all_text
    emails := pySetList st.all_emails
    important_links :=
      (unique_links.filter (fun l =>
        ¬ keyword_match (lowerStr l.url ++ " " ++ lowerStr l.text) NAV_NOISE ∧
        l.text ≠ "")).take 15
    pricing_found := detect_pricing st.all_text
    pricing_data := st.cats.pricing
    api_found := st.cats.api.isSome
    api_data := st.cats.api
    team_found :=
      match st.cats.team with
      | some r => ¬ r.snippets.isEmpty
      | none => false
    team_data := st.cats.team
    testimonials_found :=
      match st.cats.clients with
      | some r => ¬ r.testimonials.isEmpty
      | none => false
    testimonials_data := st.cats.clients
    existing_llms_txt := existing_llms_txt
    pages_crawled := st.pages_crawled
    deep := deep
    pages_raw := if deep then some st.pages_raw else none }

/-- Everything `crawl` does after the total-failure check (crawl.py lines
247-377), producing the output record from the level-1 page dict. -/
def crawlAssemble (fetchO : String → Option (HtmlDoc × String))
    (textO : String → Option String) (root_url : String) (deep : Bool)
    (level1_pages : List (String × PageExtract)) : BusinessInfo :=
  let domain := (urlparse root_url).netloc
  let text_limit := if deep then MAX_TEXT_LENGTH_DEEP else MAX_TEXT_LENGTH
  let m := level1_pages.foldl (mergeStep deep text_limit)
    ⟨[], [], [], "", "", "", [], []⟩
  let unique_links := (m.all_links.foldl uniqueLinksFold ([], [])).1
  let level2_targets := select_level2_links unique_links
  let st := level2_targets.foldl (level2Step fetchO deep text_limit)
    ⟨m.pages_crawled, m.all_emails, m.all_text, m.all_headings, m.pages_raw,
     ⟨none, none, none, none⟩⟩
  let existing_llms_txt := textO ("https://" ++ domain ++ "/llms.txt")
  assembleOutput domain deep text_limit m unique_links st existing_llms_txt

/-- `crawl(root_url, extra_urls, deep)` (crawl.py lines 227-377);
`Except.error ()` is the fatal `sys.exit(1)` on total level-1 failure. -/
def crawl (fetchO : String → Option (HtmlDoc × String))
    (textO : String → Option String) (root_url : String)
    (extra_urls : List String) (deep : Bool) : Except Unit BusinessInfo :=
  let level1_pages := (root_url :: extra_urls).foldl (level1Step fetchO) []
  if level1_pages.isEmpty then Except.error ()
  else Except.ok (crawlAssemble fetchO textO root_url deep level1_pages)

/-! ### Result accessors (used to state closed facts about crawl runs) -/

def resIsFatal : Except Unit BusinessInfo → Bool
  | .ok _ => false
  | .error _ => true

def resEmails : Except Unit BusinessInfo → List String
  | .ok o => o.emails
  | .error _ => []

def resPricingFound : Except Unit BusinessInfo → Bool
  | .ok o => o.pricing_found
  | .error _ => false

def resPricingData : Except Unit BusinessInfo → Option PlainRec
  | .ok o => o.pricing_data
  | .error _ => none

def resTeamFound : Except Unit BusinessInfo → Bool
  | .ok o => o.team_found
  | .error _ => false

def resTeamData : Except Unit BusinessInfo → Option TeamRec
  | .ok o => o.team_data
  | .error _ => none

/-! ### Position of first appearance

Used to state "snippets appear in order of their position of appearance in
the input text" (the wording of the specification). -/

/-- Index of the first occurrence of `pat` in the text, scanning left to
right. -/
def firstOccAux (pat : List Char) : List Char → Nat → Option Nat
  | [], i => if pat.isEmpty then some i else none
  | c :: rest, i =>
    if isSubseqAt pat (c :: rest) then some i else firstOccAux pat rest (i + 1)

def firstOcc (pat text : String) : Option Nat :=
  firstOccAux pat.data text.data 0

/-- Comparison of optional positions: both present and ordered. -/
def posLe (a b : Option Nat) : Bool :=
  match a, b with
  | some i, some j => i ≤ j
  | _, _ => false

/-- The specification's property: consecutive returned snippets occur in the
text, at non-decreasing positions of first appearance. -/
def snippetsInOrderOfAppearance (snips : List String) (text : String) : Prop :=
  List.Chain' (fun a b => posLe (firstOcc a text) (firstOcc b text) = true) snips

/-! ### Concrete crawl scenarios (inputs for counterexamples and witnesses) -/

/-- A fetch oracle where every request fails. -/
def oracleAllFail : String → Option (HtmlDoc × String) := fun _ => none

/-- A text-file oracle that finds no `llms.txt`. -/
def textNone : String → Option String := fun _ => none

/-- An empty parse with the given raw HTML and anchors. -/
def mkDoc (raw : String) (anchors : List Anchor) : HtmlDoc :=
  { raw := raw, anchors := anchors, titleTag := none, firstH1 := none,
    metaDescContent := none, headings := [], textBlocks := [] }

/-- Scenario A: the homepage HTML contains the same address in two case
variants and no links. -/
def oracleTwoCaseEmails : String → Option (HtmlDoc × String) := fun u =>
  if u = "https://x.com" then some (mkDoc "Foo@a.co foo@a.co" [], "https://x.com")
  else none

/-- Scenario B: every fetch yields a 200 HTML response whose body is the
empty string. -/
def oracleEmptyBody : String → Option (HtmlDoc × String) := fun _ =>
  some (mkDoc "" [], "https://x.com")

/-- Scenario C: a homepage linking to a pricing page whose text mentions no
price pattern. -/
def pricingPageDoc : HtmlDoc :=
  { mkDoc "<p>" [] with
    textBlocks := [⟨"We offer flexible options for teams of all sizes today", false⟩] }

def oracleQuietPricing : String → Option (HtmlDoc × String) := fun u =>
  if u = "https://x.com" then
    some (mkDoc "<html>" [⟨"/pricing", "Pricing"⟩], "https://x.com")
  else if u = "https://x.com/pricing" then
    some (pricingPageDoc, "https://x.com/pricing")
  else none

/-- Scenario D: a homepage linking to a team page whose text matches no
team-snippet pattern. -/
def teamPageDoc : HtmlDoc :=
  { mkDoc "<p>" [] with
    textBlocks := [⟨"Our wonderful group of humans builds this product daily", false⟩] }

def oracleQuietTeam : String → Option (HtmlDoc × String) := fun u =>
  if u = "https://x.com" then
    some (mkDoc "<html>" [⟨"/team", "Team"⟩], "https://x.com")
  else if u = "https://x.com/team" then
    some (teamPageDoc, "https://x.com/team")
  else none

/-- Scenario E: a page with one same-apex subdomain link and one
foreign-apex link. -/
def apexDoc : HtmlDoc :=
  mkDoc "" [⟨"https://blog.example.com/x", "Blog"⟩, ⟨"https://example.org", "Ext"⟩]

/-! ### Invariant of the selection loop (used by the proofs) -/

/-- Invariant of the category loop in `select_level2_links` after processing the
category lists in `done`: at most four selections, pairwise-distinct URLs
all recorded in `seen`, no fragment-carrying root-path selection, and a
strictly increasing assignment of selections to processed categories with
positive scores. -/
def SelInv (done : List (List String)) (st : SelState) : Prop :=
  st.selected.length ≤ 4 ∧
  (st.selected.map Link.url).Nodup ∧
  (∀ l ∈ st.selected, l.url ∈ st.seen) ∧
  (∀ l ∈ st.selected,
    ¬((urlparse l.url).fragment ≠ "" ∧
      ((urlparse l.url).path = "/" ∨ (urlparse l.url).path = ""))) ∧
  ∃ idxs : List Nat, idxs.Pairwise (· < ·) ∧ (∀ i ∈ idxs, i < done.length) ∧
    List.Forall₂ (fun l i => ∃ c, done[i]? = some c ∧ 0 < score_link l c)
      st.selected idxs

/-- An email list on which the denylist filter holds: no entry's lower-cased
form contains any denylisted fragment. -/
def emailsClean (es : List String) : Prop :=
  ∀ e ∈ es, ∀ x ∈ EMAIL_DENYLIST, containsStr (lowerStr e) x = false

end Crawl

open Crawl

example :
    resEmails (crawl oracleTwoCaseEmails textNone "https://x.com" [] false) =
      ["Foo@a.co", "foo@a.co"] := by decide

example : resIsFatal (crawl oracleEmptyBody textNone "https://x.com" [] false) =
    true := by decide

example :
    resPricingData (crawl oracleQuietPricing textNone "https://x.com" [] false) =
      some ⟨"https://x.com/pricing",
        "We offer flexible options for teams of all sizes today"⟩ := by decide

example :
    resPricingFound (crawl oracleQuietPricing textNone "https://x.com" [] false) =
      false := by decide

example :
    resTeamFound (crawl oracleQuietTeam textNone "https://x.com" [] false) =
      false := by decide

example :
    resTeamData (crawl oracleQuietTeam textNone "https://x.com" [] false) =
      some ⟨"https://x.com/team", [],
        "Our wonderful group of humans builds this product daily"⟩ := by decide

example : select_level2_links [⟨"team", "https://x.com/"⟩] =
    [⟨"team", "https://x.com/"⟩] := by decide

example : (urlparse "https://x.com/#top").fragment = "top" := by decide

example : (urlparse "https://x.com/about?q=1#top").path = "/about" := by decide

example : urljoin "https://example.com" "https://blog.example.com/x" =
    "https://blog.example.com/x" := by decide

example : urljoin "https://example.com/a/b" "../c" = "https://example.com/c" := by decide

example : urljoin "https://example.com" "/team" = "https://example.com/team" := by decide

example : apexDomain "blog.example.com" = "example.com" := by decide

example : score_link ⟨"Our Team", "https://x.com/about/team"⟩ TEAM_KEYWORDS = 4 := by decide

example : extract_team_snippets "Ab Cd is the CEO. Ef Gh, CTO" =
    ["Ef Gh, CTO", "Ab Cd is the CEO"] := by decide

example : findallEmails "Foo@a.co foo@a.co x a@b..cd t@b.co.uk" =
    ["Foo@a.co", "foo@a.co", "a@b..cd", "t@b.co.uk"] := by decide

example : detect_pricing "only $49/month now" = true := by decide

example : detect_pricing "demo or promotion" = false := by decide

example : detect_pricing "per seat Pricing" = true := by decide

example : extract_testimonial_snippets "x“this product is truly wonderful for us” y" =
    ["this product is truly wonderful for us"] := by decide

example : detect_pricing "demo/money" = false := by decide

example : detect_pricing "a/mo b" = true := by decide

example : detect_pricing "a/mop" = false := by decide

example : extract_team_snippets "Jo Vo, VP and Al Bo, Co-founder. Cy Dy is our co-founder" =
    ["Jo Vo, VP", "Al Bo, Co-founder", "Cy Dy is our co-founder"] := by decide

/-! ## Scoring lemmas (claim C4) -/

theorem score_foldl_shift (path text : String) (kws : List String) (n : Nat) :
    kws.foldl (scoreStep path text) n = n + kws.foldl (scoreStep path text) 0 := by
  induction kws generalizing n with
  | nil => simp
  | cons kw kws ih =>
    simp only [List.foldl_cons]
    rw [ih (scoreStep path text n kw), ih (scoreStep path text 0 kw)]
    unfold scoreStep
    split
    · omega
    · split <;> omega

theorem score_foldl_formulas (p t : String) (kws : List String) :
    kws.foldl (scoreStep p t) 0 =
      (kws.map (fun kw => if containsStr p kw then 2
        else if containsStr t kw then 1 else 0)).sum ∧
    kws.foldl (scoreStep p t) 0 =
      2 * kws.countP (fun kw => containsStr p kw) +
        kws.countP (fun kw => !(containsStr p kw) && containsStr t kw) := by
  induction kws with
  | nil => simp
  | cons kw kws ih =>
    obtain ⟨ih1, ih2⟩ := ih
    constructor
    · simp only [List.foldl_cons, List.map_cons, List.sum_cons]
      rw [score_foldl_shift, ih1]
      unfold scoreStep
      by_cases hp : containsStr p kw = true
      · simp only [hp, if_true]
      · by_cases ht : containsStr t kw = true
        · simp only [hp, ht, if_true, if_false]
        · simp only [hp, ht, if_false]
    · simp only [List.foldl_cons, List.countP_cons]
      rw [score_foldl_shift, ih2]
      unfold scoreStep
      by_cases hp : containsStr p kw = true
      · simp only [hp, if_true, Bool.not_true, Bool.false_and,
          Bool.false_eq_true, if_false, decide_True]
        omega
      · by_cases ht : containsStr t kw = true
        · simp only [hp, ht, Bool.not_false, Bool.true_and, if_true, if_false,
            Bool.false_eq_true, decide_True]
          omega
        · simp only [hp, ht, Bool.not_false, Bool.true_and,
            Bool.false_eq_true, if_false]
          omega

/-- Claim C4: for every link and keyword list, `score_link` returns the sum
over keywords of 2 points if the keyword occurs in the lower-cased URL path,
else 1 point if it occurs in the lower-cased link text, else 0; equivalently
the score is 2 × (path matches) + 1 × (text-only matches). -/
theorem claim_C4 (l : Link) (kws : List String) :
    score_link l kws =
      (kws.map (fun kw =>
        if containsStr (lowerStr (urlparse l.url).path) kw then 2
        else if containsStr (lowerStr l.text) kw then 1 else 0)).sum ∧
    score_link l kws =
      2 * kws.countP (fun kw => containsStr (lowerStr (urlparse l.url).path) kw) +
        kws.countP (fun kw =>
          !(containsStr (lowerStr (urlparse l.url).path) kw) &&
            containsStr (lowerStr l.text) kw) := by
  unfold score_link
  exact score_foldl_formulas _ _ kws

/-! ## Selection lemmas (claims C2, C3, C10) -/

theorem mem_insertByScoreDesc {x y : Nat × Link} {l : List (Nat × Link)} :
    y ∈ insertByScoreDesc x l ↔ y = x ∨ y ∈ l := by
  induction l with
  | nil => simp [insertByScoreDesc]
  | cons z zs ih =>
    unfold insertByScoreDesc
    split
    · simp [List.mem_cons]
    · simp only [List.mem_cons, ih]
      tauto

theorem mem_sortByScoreDesc {y : Nat × Link} {l : List (Nat × Link)} :
    y ∈ sortByScoreDesc l ↔ y ∈ l := by
  induction l with
  | nil => simp [sortByScoreDesc]
  | cons z zs ih =>
    show y ∈ insertByScoreDesc z (sortByScoreDesc zs) ↔ _
    rw [mem_insertByScoreDesc, ih]
    simp [List.mem_cons]

theorem categoryCandidates_sound {links : List Link} {kws : List String}
    {p : Nat × Link} (h : p ∈ categoryCandidates links kws) :
    p.2 ∈ links ∧ p.1 = score_link p.2 kws ∧ 0 < score_link p.2 kws := by
  unfold categoryCandidates at h
  rw [mem_sortByScoreDesc, List.mem_filter] at h
  obtain ⟨hmem, hpos⟩ := h
  rw [List.mem_map] at hmem
  obtain ⟨a, ha, hpa⟩ := hmem
  subst hpa
  exact ⟨ha, rfl, of_decide_eq_true hpos⟩

theorem addLink_skip_frag (st : SelState) (l : Link)
    (hA : (urlparse l.url).fragment ≠ "" ∧
      ((urlparse l.url).path = "/" ∨ (urlparse l.url).path = "")) :
    addLink st l = st := by
  simp only [addLink]
  rw [if_pos hA]

theorem addLink_skip_seen (st : SelState) (l : Link) (hm : l.url ∈ st.seen) :
    addLink st l = st := by
  simp only [addLink]
  by_cases hA : (urlparse l.url).fragment ≠ "" ∧
      ((urlparse l.url).path = "/" ∨ (urlparse l.url).path = "")
  · rw [if_pos hA]
  · rw [if_neg hA, if_neg]
    intro hB
    exact hB.1 (List.elem_iff.mpr hm)

theorem addLink_cases (st : SelState) (l : Link) :
    addLink st l = st ∨
    (addLink st l = ⟨st.selected ++ [l], st.seen ++ [l.url]⟩ ∧
      l.url ∉ st.seen ∧ st.selected.length < 4 ∧
      ¬((urlparse l.url).fragment ≠ "" ∧
        ((urlparse l.url).path = "/" ∨ (urlparse l.url).path = ""))) := by
  simp only [addLink]
  by_cases hA : (urlparse l.url).fragment ≠ "" ∧
      ((urlparse l.url).path = "/" ∨ (urlparse l.url).path = "")
  · rw [if_pos hA]
    exact Or.inl rfl
  · rw [if_neg hA]
    by_cases hB : ¬ st.seen.contains l.url = true ∧ st.selected.length < 4
    · rw [if_pos hB]
      exact Or.inr ⟨rfl, fun hm => hB.1 (List.elem_iff.mpr hm), hB.2, hA⟩
    · rw [if_neg hB]
      exact Or.inl rfl

theorem categoryStep_cases (links : List Link) (st : SelState) (kws : List String) :
    categoryStep links st kws = st ∨
    ∃ l : Link, l ∈ links ∧ 0 < score_link l kws ∧ l.url ∉ st.seen ∧
      st.selected.length < 4 ∧
      ¬((urlparse l.url).fragment ≠ "" ∧
        ((urlparse l.url).path = "/" ∨ (urlparse l.url).path = "")) ∧
      categoryStep links st kws = ⟨st.selected ++ [l], st.seen ++ [l.url]⟩ := by
  unfold categoryStep
  cases h : categoryCandidates links kws with
  | nil => exact Or.inl rfl
  | cons best rest =>
    rcases addLink_cases st best.2 with h1 | ⟨h1, h2, h3, h4⟩
    · exact Or.inl h1
    · have hs := categoryCandidates_sound (h ▸ List.mem_cons_self best rest)
      exact Or.inr ⟨best.2, hs.1, hs.2.2, h2, h3, h4, h1⟩

theorem selInv_step (links : List Link) (done : List (List String))
    (kws : List String) (st : SelState) (h : SelInv done st) :
    SelInv (done ++ [kws]) (categoryStep links st kws) := by
  obtain ⟨h1, h2, h3, h4, idxs, hp, hb, hf⟩ := h
  have weaken : ∀ (a : Link) (b : Nat),
      (∃ c, done[b]? = some c ∧ 0 < score_link a c) →
      ∃ c, (done ++ [kws])[b]? = some c ∧ 0 < score_link a c := by
    intro a b ⟨c, hgc, hs⟩
    refine ⟨c, ?_, hs⟩
    rw [List.getElem?_append_left (List.getElem?_eq_some.mp hgc).1]
    exact hgc
  rcases categoryStep_cases links st kws with hc |
      ⟨l, hlmem, hscore, hseen, hlen, hfrag, hc⟩
  · rw [hc]
    refine ⟨h1, h2, h3, h4, idxs, hp, ?_, hf.imp weaken⟩
    intro i hi
    have := hb i hi
    simp only [List.length_append, List.length_cons, List.length_nil]
    omega
  · rw [hc]
    refine ⟨?_, ?_, ?_, ?_, idxs ++ [done.length], ?_, ?_, ?_⟩
    · simp only [List.length_append, List.length_cons, List.length_nil]
      omega
    · rw [List.map_append]
      refine List.nodup_append.mpr ⟨h2, by simp, ?_⟩
      intro a ha hb'
      simp only [List.map_cons, List.map_nil, List.mem_singleton] at hb'
      subst hb'
      rw [List.mem_map] at ha
      obtain ⟨x, hx, hxu⟩ := ha
      exact hseen (hxu ▸ h3 x hx)
    · intro x hx
      rcases List.mem_append.mp hx with hx1 | hx2
      · exact List.mem_append_left _ (h3 x hx1)
      · simp only [List.mem_singleton] at hx2
        subst hx2
        exact List.mem_append_right _ (by simp)
    · intro x hx
      rcases List.mem_append.mp hx with hx1 | hx2
      · exact h4 x hx1
      · simp only [List.mem_singleton] at hx2
        subst hx2
        exact hfrag
    · refine List.pairwise_append.mpr ⟨hp, by simp, ?_⟩
      intro x hx y hy
      simp only [List.mem_singleton] at hy
      subst hy
      exact hb x hx
    · intro i hi
      simp only [List.length_append, List.length_cons, List.length_nil]
      rcases List.mem_append.mp hi with hi1 | hi2
      · have := hb i hi1
        omega
      · simp only [List.mem_singleton] at hi2
        omega
    · refine List.rel_append (hf.imp weaken) ?_
      refine List.Forall₂.cons ⟨kws, ?_, hscore⟩ List.Forall₂.nil
      rw [List.getElem?_append_right (Nat.le_refl _)]
      simp

theorem selInv_init : SelInv [] ⟨[], []⟩ := by
  refine ⟨by simp, by simp, by simp, by simp, [], by simp, by simp,
    List.Forall₂.nil⟩

theorem selInv_fold (links : List Link) (cats : List (List String)) :
    ∀ done st, SelInv done st →
      SelInv (done ++ cats) (cats.foldl (categoryStep links) st) := by
  induction cats with
  | nil =>
    intro done st h
    simpa using h
  | cons c cs ih =>
    intro done st h
    have h1 := selInv_step links done c st h
    have h2 := ih (done ++ [c]) _ h1
    simpa [List.append_assoc] using h2

/-- Claim C3: `select_level2_links` returns at most 4 links with pairwise
distinct URLs; each returned link scores positively in the category that
selected it, and the selections follow the team, clients, pricing, api
category order (a strictly increasing assignment into `CATEGORIES`). -/
theorem claim_C3 (links : List Link) :
    (select_level2_links links).length ≤ 4 ∧
    ((select_level2_links links).map Link.url).Nodup ∧
    ∃ idxs : List Nat, idxs.Pairwise (· < ·) ∧
      List.Forall₂
        (fun l i => ∃ kws, CATEGORIES[i]? = some kws ∧ 0 < score_link l kws)
        (select_level2_links links) idxs := by
  have h := selInv_fold links CATEGORIES [] ⟨[], []⟩ selInv_init
  simp only [List.nil_append] at h
  obtain ⟨h1, h2, _, _, idxs, hp, _, hf⟩ := h
  exact ⟨h1, h2, idxs, hp, hf⟩

/-- Claim C2 (counterexample): a link whose URL has the bare root path but
carries no fragment is selected by `select_level2_links`, contradicting the
claim that defragmented root-path links are never selected. -/
theorem claim_C2_counterexample :
    select_level2_links [⟨"team", "https://x.com/"⟩] =
      [⟨"team", "https://x.com/"⟩] ∧
    (urlparse "https://x.com/").path = "/" ∧
    (urlparse "https://x.com/").fragment = "" := by
  decide

/-- Claim C2 (amended): a selected link never has a non-empty fragment
together with a bare root path (`"/"` or empty); bare root-path links
without a fragment can still be selected. -/
theorem claim_C2_amended (links : List Link) (l : Link)
    (h : l ∈ select_level2_links links) :
    ¬((urlparse l.url).fragment ≠ "" ∧
      ((urlparse l.url).path = "/" ∨ (urlparse l.url).path = "")) := by
  have hinv := selInv_fold links CATEGORIES [] ⟨[], []⟩ selInv_init
  exact hinv.2.2.2.1 l h

/-- Witness for the amended claim C2 at a concrete selected link with a
fragment and a non-root path. -/
theorem claim_C2_amended_witness :
    ¬((urlparse "https://x.com/team#top").fragment ≠ "" ∧
      ((urlparse "https://x.com/team#top").path = "/" ∨
        (urlparse "https://x.com/team#top").path = "")) :=
  claim_C2_amended [⟨"team", "https://x.com/team#top"⟩]
    ⟨"team", "https://x.com/team#top"⟩ (by decide)

/-- Claim C10: only the top-scoring candidate of a category is considered;
every link the category step adds is that top candidate, and when the top
candidate is skipped (fragment-carrying root path, or URL already chosen)
the category contributes nothing — no other candidate replaces it. -/
theorem claim_C10 (links : List Link) (st : SelState) (kws : List String)
    (best : Nat × Link) (rest : List (Nat × Link))
    (h : categoryCandidates links kws = best :: rest) :
    (∀ l ∈ (categoryStep links st kws).selected, l ∈ st.selected ∨ l = best.2) ∧
    ((((urlparse best.2.url).fragment ≠ "" ∧
        ((urlparse best.2.url).path = "/" ∨ (urlparse best.2.url).path = "")) ∨
      best.2.url ∈ st.seen) →
      (categoryStep links st kws).selected = st.selected) := by
  have hstep : categoryStep links st kws = addLink st best.2 := by
    unfold categoryStep
    rw [h]
  constructor
  · intro l hl
    rw [hstep] at hl
    rcases addLink_cases st best.2 with h1 | ⟨h1, _, _, _⟩ <;> rw [h1] at hl
    · exact Or.inl hl
    · rcases List.mem_append.mp hl with hx | hx
      · exact Or.inl hx
      · simp only [List.mem_singleton] at hx
        exact Or.inr hx
  · intro hskip
    rw [hstep]
    rcases hskip with hfrag | hseen
    · rw [addLink_skip_frag st best.2 hfrag]
    · rw [addLink_skip_seen st best.2 hseen]

/-- Witness for claim C10: the top team candidate is a fragment-only root
link, so the team category contributes nothing even though a second
candidate has positive score. -/
theorem claim_C10_witness :
    (categoryStep
      [⟨"team founders leadership", "https://x.com/#x"⟩,
       ⟨"team", "https://x.com/contact"⟩] ⟨[], []⟩ TEAM_KEYWORDS).selected = [] ∧
    0 < score_link ⟨"team", "https://x.com/contact"⟩ TEAM_KEYWORDS := by
  constructor
  · exact (claim_C10
      [⟨"team founders leadership", "https://x.com/#x"⟩,
       ⟨"team", "https://x.com/contact"⟩] ⟨[], []⟩ TEAM_KEYWORDS
      (4, ⟨"team founders leadership", "https://x.com/#x"⟩)
      [(1, ⟨"team", "https://x.com/contact"⟩)] (by decide)).2
      (Or.inl (by decide))
  · decide

/-! ## Scan-order lemmas (claim C5) -/

theorem finditerAux_pairwise (m : List Char → Option (List Char × List Char)) :
    ∀ (fuel : Nat) (cs : List Char) (pos : Nat),
      List.Pairwise (fun a b : Nat × List Char => a.1 < b.1)
        (finditerAux m fuel cs pos) ∧
      ∀ q ∈ finditerAux m fuel cs pos, pos ≤ q.1 := by
  intro fuel
  induction fuel with
  | zero =>
    intro cs pos
    simp [finditerAux]
  | succ fuel ih =>
    intro cs pos
    cases cs with
    | nil => simp [finditerAux]
    | cons c tail =>
      simp only [finditerAux]
      cases hm : m (c :: tail) with
      | none =>
        have h := ih tail (pos + 1)
        exact ⟨h.1, fun q hq => Nat.le_of_succ_le (h.2 q hq)⟩
      | some g =>
        obtain ⟨grp, rest⟩ := g
        dsimp only
        by_cases hlen : (c :: tail).length - rest.length = 0
        · rw [if_pos hlen]
          have h := ih tail (pos + 1)
          refine ⟨List.pairwise_cons.mpr ⟨fun q hq => ?_, h.1⟩, ?_⟩
          · exact Nat.lt_of_succ_le (h.2 q hq)
          · intro q hq
            rcases List.mem_cons.mp hq with rfl | hq2
            · exact Nat.le_refl _
            · exact Nat.le_of_succ_le (h.2 q hq2)
        · rw [if_neg hlen]
          have h := ih ((c :: tail).drop ((c :: tail).length - rest.length))
            (pos + ((c :: tail).length - rest.length))
          refine ⟨List.pairwise_cons.mpr ⟨fun q hq => ?_, h.1⟩, ?_⟩
          · have := h.2 q hq
            omega
          · intro q hq
            rcases List.mem_cons.mp hq with rfl | hq2
            · exact Nat.le_refl _
            · have := h.2 q hq2
              omega

theorem finditer_positions_increasing
    (m : List Char → Option (List Char × List Char)) (s : String) :
    ((finditer m s).map Prod.fst).Pairwise (· < ·) := by
  unfold finditer
  rw [List.map_map]
  exact List.pairwise_map.mpr (finditerAux_pairwise m s.data.length s.data 0).1

/-- Claim C5 (amended): `extract_team_snippets` returns at most 5 snippets;
all matches of the comma pattern come first, then all matches of the
"is the/our" pattern, and within each pattern the matches appear in strictly
increasing positions — the overall output is not globally ordered by
position of appearance. -/
theorem claim_C5_amended (text : String) :
    (extract_team_snippets text).length ≤ 5 ∧
    extract_team_snippets text =
      (((finditer matchTeamP1 text).map Prod.snd) ++
        ((finditer matchTeamP2 text).map Prod.snd)).take 5 ∧
    ((finditer matchTeamP1 text).map Prod.fst).Pairwise (· < ·) ∧
    ((finditer matchTeamP2 text).map Prod.fst).Pairwise (· < ·) := by
  refine ⟨?_, rfl, finditer_positions_increasing _ _,
    finditer_positions_increasing _ _⟩
  unfold extract_team_snippets
  exact List.length_take_le _ _

/-- Claim C5 (counterexample): on `"Ab Cd is the CEO. Ef Gh, CTO"` the
extractor returns the comma-pattern match (position 18) before the
"is"-pattern match (position 0), so the snippets are not in order of their
position of appearance in the input text. -/
theorem claim_C5_counterexample :
    extract_team_snippets "Ab Cd is the CEO. Ef Gh, CTO" =
      ["Ef Gh, CTO", "Ab Cd is the CEO"] ∧
    firstOcc "Ef Gh, CTO" "Ab Cd is the CEO. Ef Gh, CTO" = some 18 ∧
    firstOcc "Ab Cd is the CEO" "Ab Cd is the CEO. Ef Gh, CTO" = some 0 ∧
    ¬ snippetsInOrderOfAppearance
      (extract_team_snippets "Ab Cd is the CEO. Ef Gh, CTO")
      "Ab Cd is the CEO. Ef Gh, CTO" := by
  have hlist : extract_team_snippets "Ab Cd is the CEO. Ef Gh, CTO" =
      ["Ef Gh, CTO", "Ab Cd is the CEO"] := by decide
  refine ⟨hlist, by decide, by decide, ?_⟩
  intro hord
  unfold snippetsInOrderOfAppearance at hord
  rw [hlist] at hord
  have h12 := (List.chain'_cons.mp hord).1
  exact absurd h12 (by decide)

/-! ## Fetch gating (claim C7) -/

/-- Claim C7: `fetch` yields an absent result on every transport exception
and on every response whose status is not 200 or whose content-type header
lacks the `"text/html"` marker; as a total function of the request outcome
it never raises. -/
theorem claim_C7 (a : HttpAttempt)
    (h : a = HttpAttempt.failure ∨
      ∃ status ct body finalUrl,
        a = HttpAttempt.success status ct body finalUrl ∧
        (status ≠ 200 ∨ containsStr (ct.getD "") "text/html" = false)) :
    fetch a = (none, none) := by
  rcases h with rfl | ⟨status, ct, body, finalUrl, rfl, hcond⟩
  · rfl
  · show (if status = 200 ∧ containsStr (ct.getD "") "text/html" = true then
        (some body, some finalUrl) else (none, none)) = (none, none)
    rw [if_neg]
    rintro ⟨h200, hct⟩
    rcases hcond with hs | hc
    · exact hs h200
    · rw [hc] at hct
      exact Bool.false_ne_true hct

/-- Witness for claim C7 at a concrete 404 HTML response. -/
theorem claim_C7_witness :
    fetch (HttpAttempt.success 404 (some "text/html") "" "https://x.com") =
      (none, none) :=
  claim_C7 _ (Or.inr ⟨404, some "text/html", "", "https://x.com", rfl,
    Or.inl (by decide)⟩)

/-! ## Link filtering of the page extractor (claim C8) -/

theorem linkFold_inv (base_url base_domain : String) (anchors : List Anchor) :
    ∀ acc : List Link × List String,
      (∀ l ∈ acc.1, apexDomain (urlparse l.url).netloc = base_domain ∧
        (urlparse l.url).path ≠ "") →
      ∀ l ∈ (anchors.foldl (linkFold base_url base_domain) acc).1,
        apexDomain (urlparse l.url).netloc = base_domain ∧
          (urlparse l.url).path ≠ "" := by
  induction anchors with
  | nil =>
    intro acc hacc
    simpa using hacc
  | cons a as ih =>
    intro acc hacc
    simp only [List.foldl_cons]
    apply ih
    intro l hl
    simp only [linkFold] at hl
    split at hl
    · exact hacc l hl
    · split at hl
      next hcond =>
        rcases List.mem_append.mp hl with hx | hx
        · exact hacc l hx
        · simp only [List.mem_singleton] at hx
          subst hx
          exact ⟨hcond.1, hcond.2.1⟩
      next => exact hacc l hl

/-- Claim C8: every link kept by `extract_page` has the same apex domain
(last two dot-separated host labels) as the base URL and a non-empty path;
in particular `https://blog.example.com/x` is accepted against base
`https://example.com` while `https://example.org` is rejected. -/
theorem claim_C8 :
    (∀ (doc : HtmlDoc) (base_url : String),
      ∀ l ∈ (extract_page doc base_url).links,
        apexDomain (urlparse l.url).netloc =
          apexDomain (urlparse base_url).netloc ∧
        (urlparse l.url).path ≠ "") ∧
    (⟨"Blog", "https://blog.example.com/x"⟩ : Link) ∈
      (extract_page apexDoc "https://example.com").links ∧
    (∀ l ∈ (extract_page apexDoc "https://example.com").links,
      l.url ≠ "https://example.org") := by
  refine ⟨?_, by decide, by decide⟩
  intro doc base_url l hl
  have hrw : (extract_page doc base_url).links =
      (doc.anchors.foldl
        (linkFold base_url (apexDomain (urlparse base_url).netloc)) ([], [])).1 :=
    rfl
  rw [hrw] at hl
  exact linkFold_inv base_url _ doc.anchors ([], []) (by simp) l hl

/-- Witness for claim C8: the subdomain link's apex matches the base apex
and its path is non-empty. -/
theorem claim_C8_witness :
    apexDomain (urlparse "https://blog.example.com/x").netloc =
      apexDomain (urlparse "https://example.com").netloc ∧
    (urlparse "https://blog.example.com/x").path ≠ "" :=
  claim_C8.1 apexDoc "https://example.com"
    ⟨"Blog", "https://blog.example.com/x"⟩ (by decide)

/-! ## Crawl-driver lemmas (claims C1, C6, C9) -/

theorem pySetList_nodup (l : List String) : (pySetList l).Nodup := by
  induction l with
  | nil => simp [pySetList]
  | cons x xs ih =>
    unfold pySetList
    split
    · exact ih
    next hc =>
      exact List.nodup_cons.mpr ⟨fun hm => hc (List.elem_iff.mpr hm), ih⟩

theorem pySetList_subset {e : String} {l : List String} (h : e ∈ pySetList l) :
    e ∈ l := by
  induction l with
  | nil => exact h
  | cons x xs ih =>
    unfold pySetList at h
    split at h
    · exact List.mem_cons_of_mem x (ih h)
    · rcases List.mem_cons.mp h with rfl | h2
      · exact List.mem_cons_self e xs
      · exact List.mem_cons_of_mem x (ih h2)

theorem extract_page_emailsClean (doc : HtmlDoc) (u : String) :
    emailsClean (extract_page doc u).emails := by
  intro e he x hx
  have hmem : e ∈ (pySetList (findallEmails doc.raw)).filter
      (fun e => !(EMAIL_DENYLIST.any (fun x => containsStr (lowerStr e) x))) := he
  rw [List.mem_filter] at hmem
  have hb := hmem.2
  rw [Bool.not_eq_true', List.any_eq_false] at hb
  have := hb x hx
  exact Bool.not_eq_true _ ▸ (by simpa using this)

theorem mem_dictInsert {α : Type} {kv : String × α} {k : String} {v : α}
    {l : List (String × α)} (h : kv ∈ dictInsert k v l) :
    kv = (k, v) ∨ kv ∈ l := by
  induction l with
  | nil => simpa [dictInsert] using h
  | cons p ps ih =>
    unfold dictInsert at h
    split at h
    · rcases List.mem_cons.mp h with rfl | h2
      · exact Or.inl rfl
      · exact Or.inr (List.mem_cons_of_mem _ h2)
    · rcases List.mem_cons.mp h with rfl | h2
      · exact Or.inr (List.mem_cons_self _ _)
      · rcases ih h2 with h3 | h3
        · exact Or.inl h3
        · exact Or.inr (List.mem_cons_of_mem _ h3)

theorem dictInsert_ne_nil {α : Type} (k : String) (v : α)
    (l : List (String × α)) : dictInsert k v l ≠ [] := by
  cases l with
  | nil => simp [dictInsert]
  | cons p ps =>
    unfold dictInsert
    split <;> simp

theorem level1_fold_pages_extract (fetchO : String → Option (HtmlDoc × String))
    (urls : List String) :
    ∀ pages, (∀ kv ∈ pages, ∃ doc u, kv.2 = extract_page doc u) →
      ∀ kv ∈ urls.foldl (level1Step fetchO) pages,
        ∃ doc u, kv.2 = extract_page doc u := by
  induction urls with
  | nil =>
    intro pages h
    simpa using h
  | cons url rest ih =>
    intro pages h
    simp only [List.foldl_cons]
    apply ih
    intro kv hkv
    revert hkv
    unfold level1Step
    cases fetchO url with
    | none => exact h kv
    | some p =>
      obtain ⟨doc, fu⟩ := p
      dsimp only
      split
      · intro hkv
        rcases mem_dictInsert hkv with heq | hmem
        · exact ⟨doc, _, by rw [heq]⟩
        · exact h kv hmem
      · exact h kv

theorem level1_fold_nil (fetchO : String → Option (HtmlDoc × String))
    (urls : List String) (pages : List (String × PageExtract))
    (h : ∀ u ∈ urls, ∀ doc fu, fetchO u = some (doc, fu) → doc.raw = "") :
    urls.foldl (level1Step fetchO) pages = pages := by
  induction urls with
  | nil => rfl
  | cons u rest ih =>
    simp only [List.foldl_cons]
    have hstep : level1Step fetchO pages u = pages := by
      unfold level1Step
      cases hf : fetchO u with
      | none => rfl
      | some p =>
        obtain ⟨doc, fu⟩ := p
        dsimp only
        rw [if_neg]
        simp only [ne_eq, not_not]
        exact h u (List.mem_cons_self u rest) doc fu hf
    rw [hstep]
    exact ih (fun u' hu' _ _ hf => h u' (List.mem_cons_of_mem _ hu') _ _ hf)

theorem level1Step_ne_nil (fetchO : String → Option (HtmlDoc × String))
    (pages : List (String × PageExtract)) (u : String) (h : pages ≠ []) :
    level1Step fetchO pages u ≠ [] := by
  unfold level1Step
  cases fetchO u with
  | none => exact h
  | some p =>
    obtain ⟨doc, fu⟩ := p
    dsimp only
    split
    · exact dictInsert_ne_nil _ _ _
    · exact h

theorem level1_fold_ne_nil (fetchO : String → Option (HtmlDoc × String))
    (urls : List String) :
    ∀ pages,
      ((∃ u ∈ urls, ∃ doc fu, fetchO u = some (doc, fu) ∧ doc.raw ≠ "") ∨
        pages ≠ []) →
      urls.foldl (level1Step fetchO) pages ≠ [] := by
  induction urls with
  | nil =>
    intro pages h
    rcases h with ⟨u, hu, _⟩ | h
    · exact absurd hu (List.not_mem_nil u)
    · exact h
  | cons u rest ih =>
    intro pages h
    simp only [List.foldl_cons]
    rcases h with ⟨u', hu', doc, fu, hf, hraw⟩ | hne
    · rcases List.mem_cons.mp hu' with rfl | hmem
      · apply ih
        right
        unfold level1Step
        rw [hf]
        dsimp only
        rw [if_pos hraw]
        exact dictInsert_ne_nil _ _ _
      · exact ih _ (Or.inl ⟨u', hmem, doc, fu, hf, hraw⟩)
    · exact ih _ (Or.inr (level1Step_ne_nil fetchO pages u hne))

theorem crawl_fatal (fetchO : String → Option (HtmlDoc × String))
    (textO : String → Option String) (root : String) (extras : List String)
    (deep : Bool)
    (h : (root :: extras).foldl (level1Step fetchO) [] = []) :
    crawl fetchO textO root extras deep = Except.error () := by
  simp only [crawl]
  rw [h]
  rfl

theorem crawl_ok (fetchO : String → Option (HtmlDoc × String))
    (textO : String → Option String) (root : String) (extras : List String)
    (deep : Bool)
    (h : (root :: extras).foldl (level1Step fetchO) [] ≠ []) :
    crawl fetchO textO root extras deep =
      Except.ok (crawlAssemble fetchO textO root deep
        ((root :: extras).foldl (level1Step fetchO) [])) := by
  simp only [crawl]
  rw [if_neg (fun hc => h (List.isEmpty_iff.mp hc))]

/-- Claim C6 (amended): if every level-1 fetch fails or yields an empty
body, the crawl terminates fatally with no output record; if at least one
level-1 fetch yields a non-empty body, the run continues and produces an
output record.  (A successful fetch whose body is the empty string counts
as a failure, because the crawler tests the body's truthiness.) -/
theorem claim_C6_amended (fetchO : String → Option (HtmlDoc × String))
    (textO : String → Option String) (root : String) (extras : List String)
    (deep : Bool) :
    ((∀ u ∈ root :: extras, ∀ doc fu, fetchO u = some (doc, fu) → doc.raw = "") →
      crawl fetchO textO root extras deep = Except.error ()) ∧
    ((∃ u ∈ root :: extras, ∃ doc fu, fetchO u = some (doc, fu) ∧ doc.raw ≠ "") →
      ∃ out, crawl fetchO textO root extras deep = Except.ok out) := by
  constructor
  · intro h
    exact crawl_fatal fetchO textO root extras deep
      (level1_fold_nil fetchO (root :: extras) [] h)
  · intro h
    exact ⟨_, crawl_ok fetchO textO root extras deep
      (level1_fold_ne_nil fetchO (root :: extras) [] (Or.inl h))⟩

/-- Claim C6 (counterexample): the single level-1 fetch succeeds (a 200 HTML
response whose body is empty), yet the crawl terminates fatally — so "at
least one level-1 fetch succeeds" does not imply an output record. -/
theorem claim_C6_counterexample :
    oracleEmptyBody "https://x.com" = some (mkDoc "" [], "https://x.com") ∧
    resIsFatal (crawl oracleEmptyBody textNone "https://x.com" [] false) =
      true :=
  ⟨rfl, by decide⟩

/-- Witness for the amended claim C6: total failure is fatal, and one
non-empty page yields an output record. -/
theorem claim_C6_amended_witness :
    crawl oracleAllFail textNone "https://x.com" [] false = Except.error () ∧
    ∃ out, crawl oracleTwoCaseEmails textNone "https://x.com" [] false =
      Except.ok out := by
  constructor
  · exact (claim_C6_amended oracleAllFail textNone "https://x.com" [] false).1
      (by intro u hu doc fu hf; exact absurd hf (by simp [oracleAllFail]))
  · exact (claim_C6_amended oracleTwoCaseEmails textNone "https://x.com" []
      false).2
      ⟨"https://x.com", List.mem_cons_self _ _,
        mkDoc "Foo@a.co foo@a.co" [], "https://x.com", rfl, by decide⟩

theorem mergeFold_emailsClean (deep : Bool) (tl : Nat)
    (pages : List (String × PageExtract))
    (hpages : ∀ kv ∈ pages, ∃ doc u, kv.2 = extract_page doc u) :
    ∀ acc : L1Merge, emailsClean acc.all_emails →
      emailsClean ((pages.foldl (mergeStep deep tl) acc).all_emails) := by
  induction pages with
  | nil =>
    intro acc h
    exact h
  | cons kv rest ih =>
    intro acc hacc
    simp only [List.foldl_cons]
    apply ih (fun kv' h' => hpages kv' (List.mem_cons_of_mem _ h'))
    intro e he x hx
    have hrw : (mergeStep deep tl acc kv).all_emails =
        acc.all_emails ++ kv.2.emails := rfl
    rw [hrw] at he
    rcases List.mem_append.mp he with h1 | h2
    · exact hacc e h1 x hx
    · obtain ⟨doc, u, hext⟩ := hpages kv (List.mem_cons_self _ _)
      rw [hext] at h2
      exact extract_page_emailsClean doc u e h2 x hx

theorem level2Fold_emailsClean (fetchO : String → Option (HtmlDoc × String))
    (deep : Bool) (tl : Nat) (targets : List Link) :
    ∀ acc : L2Acc, emailsClean acc.all_emails →
      emailsClean ((targets.foldl (level2Step fetchO deep tl) acc).all_emails) := by
  induction targets with
  | nil =>
    intro acc h
    exact h
  | cons link rest ih =>
    intro acc hacc
    simp only [List.foldl_cons]
    apply ih
    intro e he x hx
    revert he
    unfold level2Step
    cases fetchO link.url with
    | none => exact fun he => hacc e he x hx
    | some p =>
      obtain ⟨doc, fu⟩ := p
      dsimp only
      split
      · exact fun he => hacc e he x hx
      · intro he
        rcases List.mem_append.mp he with h1 | h2
        · exact hacc e h1 x hx
        · exact extract_page_emailsClean _ _ e h2 x hx

theorem crawlAssemble_emails (fetchO : String → Option (HtmlDoc × String))
    (textO : String → Option String) (root : String) (deep : Bool)
    (pages : List (String × PageExtract))
    (hpages : ∀ kv ∈ pages, ∃ doc u, kv.2 = extract_page doc u) :
    (crawlAssemble fetchO textO root deep pages).emails.Nodup ∧
    emailsClean (crawlAssemble fetchO textO root deep pages).emails := by
  constructor
  · exact pySetList_nodup _
  · intro e he x hx
    have he2 := pySetList_subset he
    exact level2Fold_emailsClean fetchO deep _ _ _
      (mergeFold_emailsClean deep _ pages hpages _ (by intro e' he'; cases he'))
      e he2 x hx

/-- Claim C1 (amended): in every produced output record the `emails` list
has no duplicate entries (deduplication is by exact string, not
case-insensitive), and no entry's lower-cased form contains `"example"`,
`"test@"`, `"@sentry"` or `"@email"`. -/
theorem claim_C1_amended (fetchO : String → Option (HtmlDoc × String))
    (textO : String → Option String) (root : String) (extras : List String)
    (deep : Bool) (out : BusinessInfo)
    (h : crawl fetchO textO root extras deep = Except.ok out) :
    out.emails.Nodup ∧
    ∀ e ∈ out.emails, ∀ x ∈ EMAIL_DENYLIST,
      containsStr (lowerStr e) x = false := by
  by_cases hc : ((root :: extras).foldl (level1Step fetchO) []).isEmpty = true
  · exfalso
    simp only [crawl] at h
    rw [if_pos hc] at h
    exact Except.noConfusion h
  · simp only [crawl] at h
    rw [if_neg hc] at h
    have hout := (Except.ok.inj h).symm
    subst hout
    exact crawlAssemble_emails fetchO textO root deep _
      (level1_fold_pages_extract fetchO (root :: extras) []
        (by intro kv hkv; cases hkv))

/-- Claim C1 (counterexample): a crawl of a page containing `Foo@a.co` and
`foo@a.co` outputs both entries — two addresses equal up to letter case —
so email deduplication is not case-insensitive. -/
theorem claim_C1_counterexample :
    resEmails (crawl oracleTwoCaseEmails textNone "https://x.com" [] false) =
      ["Foo@a.co", "foo@a.co"] ∧
    lowerStr "Foo@a.co" = lowerStr "foo@a.co" ∧
    ("Foo@a.co" : String) ≠ "foo@a.co" := by
  refine ⟨by decide, by decide, by decide⟩

/-- Witness for the amended claim C1 at a concrete crawl run. -/
theorem claim_C1_amended_witness :
    ∃ out, crawl oracleTwoCaseEmails textNone "https://x.com" [] false =
        Except.ok out ∧
      (out.emails.Nodup ∧
        ∀ e ∈ out.emails, ∀ x ∈ EMAIL_DENYLIST,
          containsStr (lowerStr e) x = false) :=
  ⟨_, rfl, claim_C1_amended oracleTwoCaseEmails textNone "https://x.com" []
    false _ rfl⟩

theorem assembleOutput_flags (domain : String) (deep : Bool) (tl : Nat)
    (m : L1Merge) (ul : List Link) (st : L2Acc) (ex : Option String) :
    ((assembleOutput domain deep tl m ul st ex).team_found = true ↔
      ∃ r, (assembleOutput domain deep tl m ul st ex).team_data = some r ∧
        r.snippets ≠ []) ∧
    ((assembleOutput domain deep tl m ul st ex).api_found = true ↔
      ∃ r, (assembleOutput domain deep tl m ul st ex).api_data = some r) ∧
    ((assembleOutput domain deep tl m ul st ex).testimonials_found = true ↔
      ∃ r, (assembleOutput domain deep tl m ul st ex).testimonials_data =
          some r ∧ r.testimonials ≠ []) := by
  refine ⟨?_, ?_, ?_⟩
  · cases ht : st.cats.team with
    | none => simp [assembleOutput, ht]
    | some r =>
      simp [assembleOutput, ht, List.isEmpty_iff]
  · cases ha : st.cats.api with
    | none => simp [assembleOutput, ha]
    | some r => simp [assembleOutput, ha]
  · cases hcl : st.cats.clients with
    | none => simp [assembleOutput, hcl]
    | some r =>
      simp [assembleOutput, hcl, List.isEmpty_iff]

theorem crawlAssemble_flags (fetchO : String → Option (HtmlDoc × String))
    (textO : String → Option String) (root : String) (deep : Bool)
    (pages : List (String × PageExtract)) :
    ((crawlAssemble fetchO textO root deep pages).team_found = true ↔
      ∃ r, (crawlAssemble fetchO textO root deep pages).team_data = some r ∧
        r.snippets ≠ []) ∧
    ((crawlAssemble fetchO textO root deep pages).api_found = true ↔
      ∃ r, (crawlAssemble fetchO textO root deep pages).api_data = some r) ∧
    ((crawlAssemble fetchO textO root deep pages).testimonials_found = true ↔
      ∃ r, (crawlAssemble fetchO textO root deep pages).testimonials_data =
          some r ∧ r.testimonials ≠ []) :=
  assembleOutput_flags _ _ _ _ _ _ _

/-- Claim C9 (amended): in every produced output record, `team_found` is
true iff the team record exists (a level-2 page was classified as team) and
its snippet list is non-empty — so a classified team page with zero
snippets yields `team_found = false` with non-empty `team_data`;
`testimonials_found` likewise requires a non-empty testimonial list;
`api_found` is true whenever the api record exists; `pricing_found` is the
text-pattern detector over the accumulated text and is independent of
whether a pricing record exists. -/
theorem claim_C9_amended (fetchO : String → Option (HtmlDoc × String))
    (textO : String → Option String) (root : String) (extras : List String)
    (deep : Bool) (out : BusinessInfo)
    (h : crawl fetchO textO root extras deep = Except.ok out) :
    (out.team_found = true ↔
      ∃ r, out.team_data = some r ∧ r.snippets ≠ []) ∧
    (out.api_found = true ↔ ∃ r, out.api_data = some r) ∧
    (out.testimonials_found = true ↔
      ∃ r, out.testimonials_data = some r ∧ r.testimonials ≠ []) := by
  by_cases hc : ((root :: extras).foldl (level1Step fetchO) []).isEmpty = true
  · exfalso
    simp only [crawl] at h
    rw [if_pos hc] at h
    exact Except.noConfusion h
  · simp only [crawl] at h
    rw [if_neg hc] at h
    have hout := (Except.ok.inj h).symm
    subst hout
    exact crawlAssemble_flags fetchO textO root deep _

/-- Claim C9 (counterexample): a crawled pricing page with no price pattern
in its text yields a non-empty `pricing_data` record while `pricing_found`
is false — so it is not the case that every testimonials-free category flag
is true whenever its record exists. -/
theorem claim_C9_counterexample :
    resPricingData (crawl oracleQuietPricing textNone "https://x.com" [] false)
      ≠ none ∧
    resPricingFound (crawl oracleQuietPricing textNone "https://x.com" [] false)
      = false := by
  refine ⟨by decide, by decide⟩

/-- Witness for the amended claim C9: a crawl whose team page has zero
snippet matches yields `team_found = false` with a non-empty `team_data`. -/
theorem claim_C9_amended_witness :
    ∃ out, crawl oracleQuietTeam textNone "https://x.com" [] false =
        Except.ok out ∧
      (out.team_found = true ↔
        ∃ r, out.team_data = some r ∧ r.snippets ≠ []) ∧
      out.team_found = false ∧ out.team_data ≠ none :=
  ⟨_, rfl,
    (claim_C9_amended oracleQuietTeam textNone "https://x.com" [] false _
      rfl).1,
    by decide, by decide⟩
